import Mathlib

/-!
Shallow embedding of `rusty-tesseract`'s `src/tesseract/input.rs`.

OS path strings (Rust `OsStr`/`PathBuf` on Unix) are arbitrary byte
sequences that may fail UTF-8 validation.  We model such a string as a
list of units, each unit being either a decoded Unicode character or a
single byte that is not part of any valid UTF-8 sequence.  Since the
separator bytes `'/'` and `'.'` are ASCII and ASCII bytes never occur
inside a multi-byte UTF-8 encoding, splitting on them commutes with
decoding, so this abstraction is faithful for the path operations the
code uses (`Path::extension`, `OsStr::to_str`).
-/

namespace RustyTesseract

/-- One unit of an OS string: a decoded Unicode character, or a byte that
is not valid UTF-8 at its position. -/
inductive OsChar where
  | ch (c : Char)
  | bad (b : Nat)
deriving DecidableEq, Repr

/-- An OS string (`OsStr` / `PathBuf` contents). -/
abbrev OsStr := List OsChar

/-- `OsStr::to_str` at the level of character lists: succeeds iff every
unit is a valid character. -/
def osToChars : OsStr → Option (List Char)
  | [] => some []
  | OsChar.ch c :: rest => (osToChars rest).map (fun l => c :: l)
  | OsChar.bad _ :: _ => none

/-- `OsStr::to_str`: `Some` of the decoded string iff the whole OS string
is valid UTF-8, `None` otherwise. -/
def osToStr (p : OsStr) : Option String :=
  (osToChars p).map String.mk

/-- Embeds a Rust `String`/`&str` (always valid UTF-8) as an OS string. -/
def osOfString (s : String) : OsStr :=
  s.data.map OsChar.ch

/-- Split a list on a separator element (the splitter used by Rust path
component iteration, specialised later to the byte `'/'`). -/
def splitChar (sep : OsChar) : OsStr → List OsStr
  | [] => [[]]
  | c :: rest =>
    if c = sep then [] :: splitChar sep rest
    else
      match splitChar sep rest with
      | [] => [[c]]
      | h :: t => (c :: h) :: t

/-- The normal components of a path: split on `'/'`, dropping empty
components and `"."` components, mirroring `std::path::Components`
(which skips empty and `CurDir` components). -/
def components (p : OsStr) : List OsStr :=
  (splitChar (OsChar.ch '/') p).filter
    (fun c => !(c == []) && !(c == [OsChar.ch '.']))

/-- `Path::file_name`: the last component, unless it is `".."`
(a `ParentDir` component, which is not a file name). -/
def file_name (p : OsStr) : Option OsStr :=
  match (components p).getLast? with
  | none => none
  | some c =>
    if c = [OsChar.ch '.', OsChar.ch '.'] then none else some c

/-- The portion of a file name strictly after its last `'.'`, or `none`
if it contains no `'.'` at all. -/
def afterLastDot : OsStr → Option OsStr
  | [] => none
  | c :: rest =>
    match afterLastDot rest with
    | some e => some e
    | none => if c = OsChar.ch '.' then some rest else none

/-- Rust's `split_file_at_dot` extension rule: the extension is the part
after the last `'.'` of the file name, except that a `'.'` at index 0
(a leading dot of a dot-file) is not an extension separator.  A file
name of `".."` never reaches this point (`file_name` filters it). -/
def extensionOfFileName (f : OsStr) : Option OsStr :=
  match f with
  | [] => none
  | _ :: rest => afterLastDot rest

/-- `Path::extension`. -/
def extension (p : OsStr) : Option OsStr :=
  (file_name p).bind extensionOfFileName

/-- `str::to_uppercase` per character.  Exact on ASCII and on every
character whose Unicode uppercase mapping contains an ASCII letter and
could therefore matter for membership in the ASCII-only allow-list
(`ı`, `ſ`, `ß`, and the Latin ligatures U+FB00–U+FB06); all other
characters are left unchanged, which their Unicode uppercase (itself
non-ASCII, or accompanied by a residual non-ASCII character) never
distinguishes for allow-list membership. -/
def rustUpperChar (c : Char) : List Char :=
  if 'a' ≤ c ∧ c ≤ 'z' then [c.toUpper]
  else if c = 'ı' then ['I']
  else if c = 'ſ' then ['S']
  else if c = 'ß' then ['S', 'S']
  else if c = 'ﬀ' then ['F', 'F']
  else if c = 'ﬁ' then ['F', 'I']
  else if c = 'ﬂ' then ['F', 'L']
  else if c = 'ﬃ' then ['F', 'F', 'I']
  else if c = 'ﬄ' then ['F', 'F', 'L']
  else if c = 'ﬅ' then ['S', 'T']
  else if c = 'ﬆ' then ['S', 'T']
  else [c]

/-- `str::to_uppercase`. -/
def rustToUppercase (s : String) : String :=
  String.mk ((s.data.map rustUpperChar).flatten)

/-- The extension allow-list matched by `check_image_format`. -/
def allowList : List String :=
  ["JPEG", "JPG", "PNG", "PBM", "PGM", "PPM", "TIFF", "BMP", "GIF", "WEBP"]

/-- Modelled from the spec: the error enum `TessError` is declared in the
crate root, outside the provided source file; `input.rs` uses the four
variants below, which §7 of the specification describes (the wrapped
causes are the underlying errors rendered as strings). -/
inductive TessError where
  | ImageFormatError
  | ImageNotFoundError
  | TempfileError (cause : String)
  | DynamicImageError (cause : String)
deriving DecidableEq, Repr

/-- A `tempfile::NamedTempFile`: for path resolution all that matters is
the path of the backing file, chosen by the temp-file facility. -/
structure NamedTempFile where
  path : OsStr
deriving DecidableEq, Repr

/-- The private `InputData` enum. -/
inductive InputData where
  | Path (p : OsStr)
  | Image (t : NamedTempFile)
deriving DecidableEq, Repr

/-- The public `Image` input handle. -/
structure Image where
  data : InputData
deriving DecidableEq, Repr

/-- `Image::check_image_format`: extension must exist, be valid UTF-8,
and uppercase to an allow-list member. -/
def Image.check_image_format (path : OsStr) : Except TessError Unit :=
  match extension path with
  | none => .error TessError.ImageFormatError
  | some ex =>
    match osToStr ex with
    | none => .error TessError.ImageFormatError
    | some s =>
      if allowList.contains (rustToUppercase s) then .ok ()
      else .error TessError.ImageFormatError

/-- `Image::from_path`: validate the extension, then store the path
unchanged. -/
def Image.from_path (path : OsStr) : Except TessError Image :=
  match Image.check_image_format path with
  | .error e => .error e
  | .ok _ => .ok ⟨InputData.Path path⟩

/-- `Image::from_dynamic_image`.  The two effectful calls — temp-file
allocation and `save_with_format(path, Png)` — are external collaborators;
their outcomes enter as parameters: `tempfileResult` is the result of
`tempfile::Builder::tempfile()` and `saveResult tf` the result of saving
the image to `tf`'s path, each carrying its error already rendered as a
string (`e.to_string()`). -/
def Image.from_dynamic_image (tempfileResult : Except String NamedTempFile)
    (saveResult : NamedTempFile → Except String Unit) :
    Except TessError Image :=
  match tempfileResult with
  | .error e => .error (TessError.TempfileError e)
  | .ok tempfile =>
    match saveResult tempfile with
    | .error e => .error (TessError.DynamicImageError e)
    | .ok _ => .ok ⟨InputData.Image tempfile⟩

/-- The OS string held by an `Image` (the `FromPath` path, or the
temporary file's path). -/
def Image.storedPath (img : Image) : OsStr :=
  match img.data with
  | InputData.Path x => x
  | InputData.Image x => x.path

/-- `Image::get_image_path`: resolve the stored path to a UTF-8 string,
`ImageNotFoundError` if it is not valid UTF-8. -/
def Image.get_image_path (img : Image) : Except TessError String :=
  match (match img.data with
         | InputData.Path x => osToStr x
         | InputData.Image x => osToStr x.path) with
  | some s => .ok s
  | none => .error TessError.ImageNotFoundError

/-- The `Display` impl: `write!(f, "{}", self.get_image_path().unwrap())`.
The `unwrap` panics on the error case; a panic is modelled as `none`. -/
def Image.displayFmt (img : Image) : Option String :=
  match img.get_image_path with
  | .ok s => some s
  | .error _ => none

/-- The `Args` configuration struct.  `config_variables` is a
`HashMap<String, String>`, modelled as its list of entries in iteration
order (the map's iteration order is unspecified). -/
structure Args where
  executable : Option String
  tessdata_dir : Option String
  lang : String
  config_variables : List (String × String)
  dpi : Option Int
  psm : Option Int
  oem : Option Int
deriving DecidableEq, Repr

/-- `impl Default for Args`. -/
def Args.default : Args where
  executable := none
  tessdata_dir := none
  lang := "eng"
  config_variables := []
  dpi := some 150
  psm := some 3
  oem := some 3

/-- `Args::get_config_variable_args`: one `"{key}={value}"` string per
map entry. -/
def Args.get_config_variable_args (a : Args) : List String :=
  a.config_variables.map (fun kv => kv.1 ++ "=" ++ kv.2)

/-! ## Supporting lemmas -/

theorem osToChars_map_ch (l : List Char) :
    osToChars (l.map OsChar.ch) = some l := by
  induction l with
  | nil => rfl
  | cons a rest ih => simp [osToChars, ih]

theorem osToStr_osOfString (s : String) : osToStr (osOfString s) = some s := by
  simp [osToStr, osOfString, osToChars_map_ch]

theorem mem_of_mem_splitChar {sep : OsChar} {p l : OsStr}
    (hl : l ∈ splitChar sep p) {c : OsChar} (hc : c ∈ l) : c ∈ p := by
  induction p generalizing l with
  | nil =>
    simp only [splitChar, List.mem_singleton] at hl
    subst hl
    cases hc
  | cons a rest ih =>
    simp only [splitChar] at hl
    split at hl
    · rcases List.mem_cons.mp hl with rfl | hl'
      · cases hc
      · exact List.mem_cons_of_mem a (ih hl' hc)
    · split at hl
      · rcases List.mem_cons.mp hl with rfl | hl'
        · rcases List.mem_cons.mp hc with rfl | hc'
          · exact List.mem_cons_self ..
          · cases hc'
        · cases hl'
      · rename_i heq
        rcases List.mem_cons.mp hl with rfl | hl'
        · rcases List.mem_cons.mp hc with rfl | hc'
          · exact List.mem_cons_self ..
          · exact List.mem_cons_of_mem a
              (ih (heq ▸ List.mem_cons_self ..) hc')
        · exact List.mem_cons_of_mem a
            (ih (heq ▸ List.mem_cons_of_mem _ hl') hc)

theorem mem_of_mem_afterLastDot {f e : OsStr} (h : afterLastDot f = some e)
    {c : OsChar} (hc : c ∈ e) : c ∈ f := by
  induction f generalizing e with
  | nil => cases h
  | cons a rest ih =>
    simp only [afterLastDot] at h
    cases hr : afterLastDot rest with
    | some e0 =>
      simp only [hr, Option.some.injEq] at h
      subst h
      exact List.mem_cons_of_mem a (ih hr hc)
    | none =>
      simp only [hr] at h
      split at h
      · simp only [Option.some.injEq] at h
        subst h
        exact List.mem_cons_of_mem a hc
      · cases h

theorem osToChars_isSome_of_all_ch {l : OsStr}
    (h : ∀ c ∈ l, ∃ d, c = OsChar.ch d) : ∃ cs, osToChars l = some cs := by
  induction l with
  | nil => exact ⟨[], rfl⟩
  | cons a rest ih =>
    obtain ⟨d, rfl⟩ := h a (List.mem_cons_self ..)
    obtain ⟨cs, hcs⟩ := ih (fun c hc => h c (List.mem_cons_of_mem _ hc))
    exact ⟨d :: cs, by simp [osToChars, hcs]⟩

theorem mem_of_extension_eq_some {p ex : OsStr} (h : extension p = some ex)
    {c : OsChar} (hc : c ∈ ex) : c ∈ p := by
  unfold extension at h
  cases hfn : file_name p with
  | none => rw [hfn] at h; cases h
  | some f =>
    rw [hfn] at h
    replace h : extensionOfFileName f = some ex := h
    have hcf : c ∈ f := by
      cases f with
      | nil => simp [extensionOfFileName] at h
      | cons c0 r =>
        exact List.mem_cons_of_mem c0 (mem_of_mem_afterLastDot h hc)
    unfold file_name at hfn
    cases hg : (components p).getLast? with
    | none => rw [hg] at hfn; cases hfn
    | some g =>
      simp only [hg] at hfn
      split at hfn
      · cases hfn
      · injection hfn with hfn
        subst hfn
        have hgmem : g ∈ components p := by
          obtain ⟨hne, hx⟩ := List.mem_getLast?_eq_getLast hg
          exact hx ▸ List.getLast_mem hne
        exact mem_of_mem_splitChar (List.mem_of_mem_filter hgmem) hcf

theorem extension_osOfString_str {s : String} {ex : OsStr}
    (h : extension (osOfString s) = some ex) : ∃ e, osToStr ex = some e := by
  obtain ⟨cs, hcs⟩ := osToChars_isSome_of_all_ch (l := ex) (fun c hc => by
    have := mem_of_extension_eq_some h hc
    obtain ⟨d, _, rfl⟩ := List.mem_map.mp this
    exact ⟨d, rfl⟩)
  exact ⟨String.mk cs, by simp [osToStr, hcs]⟩

theorem get_image_path_eq (img : Image) :
    img.get_image_path =
      match osToStr img.storedPath with
      | some s => .ok s
      | none => .error TessError.ImageNotFoundError := by
  obtain ⟨d⟩ := img
  cases d <;> rfl

theorem afterLastDot_eq_none {l : OsStr}
    (h : ∀ c ∈ l, c ≠ OsChar.ch '.') : afterLastDot l = none := by
  induction l with
  | nil => rfl
  | cons a rest ih =>
    simp only [afterLastDot]
    rw [ih (fun c hc => h c (List.mem_cons_of_mem _ hc))]
    simp [h a (List.mem_cons_self ..)]

theorem dot_mem_rustToUppercase {s : String} (h : '.' ∈ s.data) :
    '.' ∈ (rustToUppercase s).data := by
  simp only [rustToUppercase]
  refine List.mem_flatten.mpr ⟨rustUpperChar '.', List.mem_map_of_mem _ h, ?_⟩
  decide

theorem allowList_no_dot : ∀ m ∈ allowList, '.' ∉ m.data := by decide

/-! ## Claim theorems -/

/-- C8: the default `Args` configuration has no executable override, no
tessdata-dir override, `lang = "eng"`, an empty `config_variables`
mapping, `dpi = some 150`, `psm = some 3`, `oem = some 3`; being a plain
value, its construction cannot fail. -/
theorem c8_default_configuration :
    Args.default.executable = none ∧ Args.default.tessdata_dir = none ∧
    Args.default.lang = "eng" ∧ Args.default.config_variables = [] ∧
    Args.default.dpi = some 150 ∧ Args.default.psm = some 3 ∧
    Args.default.oem = some 3 :=
  ⟨rfl, rfl, rfl, rfl, rfl, rfl, rfl⟩

/-- C9: `get_config_variable_args` produces exactly one element per
`config_variables` entry, each formatted `"{key}={value}"`, and the
single-entry mapping `tessedit_char_whitelist ↦ 0123456789` renders to
the one-element sequence `["tessedit_char_whitelist=0123456789"]`. -/
theorem c9_config_variable_rendering :
    (∀ a : Args,
      a.get_config_variable_args.length = a.config_variables.length) ∧
    (∀ (a : Args) (i : Nat) (kv : String × String),
      a.config_variables[i]? = some kv →
      (a.get_config_variable_args)[i]? = some (kv.1 ++ "=" ++ kv.2)) ∧
    Args.get_config_variable_args
        { Args.default with
          config_variables := [("tessedit_char_whitelist", "0123456789")] } =
      ["tessedit_char_whitelist=0123456789"] := by
  refine ⟨fun a => List.length_map .., fun a i kv h => ?_, rfl⟩
  simp [Args.get_config_variable_args, List.getElem?_map, h]

/-- Witness for C9: the rendering of the concrete single-entry mapping,
obtained through the general theorem at index 0. -/
theorem c9_config_variable_rendering_witness :
    (Args.get_config_variable_args
        { Args.default with
          config_variables :=
            [("tessedit_char_whitelist", "0123456789")] })[0]? =
      some "tessedit_char_whitelist=0123456789" :=
  c9_config_variable_rendering.2.1 _ 0 ("tessedit_char_whitelist", "0123456789")
    rfl

/-- C5: `from_dynamic_image` returns `TempfileError` exactly when the
temp-file allocation failed (wrapping its cause), `DynamicImageError`
exactly when allocation succeeded and the PNG save failed (wrapping its
cause), and an `Image` in the temporary-file state exactly when both
steps succeeded. -/
theorem c5_from_dynamic_image_error_flow
    (tr : Except String NamedTempFile)
    (sr : NamedTempFile → Except String Unit) :
    (∀ e, Image.from_dynamic_image tr sr =
        .error (TessError.TempfileError e) ↔ tr = .error e) ∧
    (∀ e, Image.from_dynamic_image tr sr =
        .error (TessError.DynamicImageError e) ↔
      ∃ tf, tr = .ok tf ∧ sr tf = .error e) ∧
    (∀ tf, Image.from_dynamic_image tr sr = .ok ⟨InputData.Image tf⟩ ↔
      tr = .ok tf ∧ sr tf = .ok ()) ∧
    (∀ img, Image.from_dynamic_image tr sr = .ok img →
      ∃ tf, img = ⟨InputData.Image tf⟩ ∧ tr = .ok tf ∧ sr tf = .ok ()) := by
  cases tr with
  | error e0 =>
    have hf : Image.from_dynamic_image (.error e0) sr =
        .error (TessError.TempfileError e0) := rfl
    refine ⟨fun e => ?_, fun e => ?_, fun tf => ?_, fun img h => ?_⟩
    · rw [hf]
      constructor
      · intro h
        injection h with h
        injection h with h
        exact h ▸ rfl
      · intro h
        injection h with h
        exact h ▸ rfl
    · rw [hf]
      constructor
      · intro h
        injection h with h
        cases h
      · rintro ⟨tf, htf, _⟩
        cases htf
    · rw [hf]
      constructor
      · intro h
        cases h
      · rintro ⟨htf, _⟩
        cases htf
    · rw [hf] at h
      cases h
  | ok tf0 =>
    cases hs : sr tf0 with
    | error e0 =>
      have hf : Image.from_dynamic_image (.ok tf0) sr =
          .error (TessError.DynamicImageError e0) := by
        simp [Image.from_dynamic_image, hs]
      refine ⟨fun e => ?_, fun e => ?_, fun tf => ?_, fun img h => ?_⟩
      · rw [hf]
        constructor
        · intro h
          injection h with h
          cases h
        · intro h
          cases h
      · rw [hf]
        constructor
        · intro h
          injection h with h
          injection h with h
          exact ⟨tf0, rfl, h ▸ hs⟩
        · rintro ⟨tf, htf, hsr⟩
          injection htf with htf
          subst htf
          rw [hs] at hsr
          injection hsr with hsr
          exact hsr ▸ rfl
      · rw [hf]
        constructor
        · intro h
          cases h
        · rintro ⟨htf, hsr⟩
          injection htf with htf
          subst htf
          rw [hs] at hsr
          cases hsr
      · rw [hf] at h
        cases h
    | ok u =>
      cases u
      have hf : Image.from_dynamic_image (.ok tf0) sr =
          .ok ⟨InputData.Image tf0⟩ := by
        simp [Image.from_dynamic_image, hs]
      refine ⟨fun e => ?_, fun e => ?_, fun tf => ?_, fun img h => ?_⟩
      · rw [hf]
        constructor
        · intro h
          cases h
        · intro h
          cases h
      · rw [hf]
        constructor
        · intro h
          cases h
        · rintro ⟨tf, htf, hsr⟩
          injection htf with htf
          subst htf
          rw [hs] at hsr
          cases hsr
      · rw [hf]
        constructor
        · intro h
          injection h with h
          injection h with h
          injection h with h
          subst h
          exact ⟨rfl, hs⟩
        · rintro ⟨htf, _⟩
          injection htf with htf
          subst htf
          rfl
      · rw [hf] at h
        injection h with h
        exact ⟨tf0, h.symm, rfl, hs⟩

/-- Witness for C5: the three outcomes at concrete inputs, each obtained
through the general theorem. -/
theorem c5_from_dynamic_image_witness :
    Image.from_dynamic_image (.error "disk full") (fun _ => .ok ()) =
        .error (TessError.TempfileError "disk full") ∧
    Image.from_dynamic_image (.ok ⟨osOfString "/tmp/rusty-tesseract0.png"⟩)
        (fun _ => .error "encode failed") =
      .error (TessError.DynamicImageError "encode failed") ∧
    Image.from_dynamic_image (.ok ⟨osOfString "/tmp/rusty-tesseract0.png"⟩)
        (fun _ => .ok ()) =
      .ok ⟨InputData.Image ⟨osOfString "/tmp/rusty-tesseract0.png"⟩⟩ :=
  ⟨((c5_from_dynamic_image_error_flow _ _).1 "disk full").mpr rfl,
   ((c5_from_dynamic_image_error_flow _ _).2.1 "encode failed").mpr
     ⟨⟨osOfString "/tmp/rusty-tesseract0.png"⟩, rfl, rfl⟩,
   ((c5_from_dynamic_image_error_flow _ _).2.2.1
     ⟨osOfString "/tmp/rusty-tesseract0.png"⟩).mpr ⟨rfl, rfl⟩⟩

/-- C4: `get_image_path` fails with `ImageNotFoundError` if and only if
the stored path is not valid UTF-8; this is its only failure mode, and
resolution is a pure function of the stored path (no filesystem
access). -/
theorem c4_get_image_path_failure_mode (img : Image) :
    (∀ e, img.get_image_path = .error e ↔
      e = TessError.ImageNotFoundError ∧ osToStr img.storedPath = none) ∧
    (∀ s, img.get_image_path = .ok s ↔ osToStr img.storedPath = some s) := by
  have hg := get_image_path_eq img
  cases ho : osToStr img.storedPath with
  | some s0 =>
    rw [ho] at hg
    constructor
    · intro e
      rw [hg]
      constructor
      · intro h
        cases h
      · rintro ⟨rfl, h⟩
        cases h
    · intro s
      rw [hg]
      constructor
      · intro h
        injection h with h
        exact h ▸ rfl
      · intro h
        injection h with h
        exact h ▸ rfl
  | none =>
    rw [ho] at hg
    constructor
    · intro e
      rw [hg]
      constructor
      · intro h
        injection h with h
        exact ⟨h.symm, rfl⟩
      · rintro ⟨rfl, _⟩
        rfl
    · intro s
      rw [hg]
      constructor
      · intro h
        cases h
      · intro h
        cases h

/-- Witness for C4: a stored path holding one invalid byte is resolved
to `ImageNotFoundError`, obtained through the general theorem. -/
theorem c4_get_image_path_witness :
    Image.get_image_path ⟨InputData.Path [OsChar.bad 255]⟩ =
      .error TessError.ImageNotFoundError :=
  ((c4_get_image_path_failure_mode ⟨InputData.Path [OsChar.bad 255]⟩).1
    TessError.ImageNotFoundError).mpr ⟨rfl, rfl⟩

/-- C6: `Display` formatting produces exactly the string `get_image_path`
returns on success, and panics (modelled `none`) exactly when the stored
path is not valid UTF-8, because it unconditionally unwraps the fallible
accessor. -/
theorem c6_display_matches_accessor (img : Image) :
    (∀ s, img.get_image_path = .ok s ↔ img.displayFmt = some s) ∧
    (img.displayFmt = none ↔ osToStr img.storedPath = none) := by
  have hg := get_image_path_eq img
  cases ho : osToStr img.storedPath with
  | some s0 =>
    rw [ho] at hg
    constructor
    · intro s
      constructor
      · intro h
        rw [hg] at h
        injection h with h
        simp only [Image.displayFmt, hg]
        exact h ▸ rfl
      · intro h
        simp only [Image.displayFmt, hg] at h
        injection h with h
        rw [hg]
        exact h ▸ rfl
    · constructor
      · intro h
        simp only [Image.displayFmt, hg] at h
        cases h
      · intro h
        cases h
  | none =>
    rw [ho] at hg
    constructor
    · intro s
      constructor
      · intro h
        rw [hg] at h
        cases h
      · intro h
        simp only [Image.displayFmt, hg] at h
        cases h
    · constructor
      · intro _
        rfl
      · intro _
        simp only [Image.displayFmt, hg]

/-- Witness for C6: the display of a concrete valid input is its path,
obtained through the general theorem. -/
theorem c6_display_witness :
    Image.displayFmt ⟨InputData.Path (osOfString "img/string.png")⟩ =
      some "img/string.png" :=
  ((c6_display_matches_accessor
      ⟨InputData.Path (osOfString "img/string.png")⟩).1 "img/string.png").mp rfl

/-- C1 (counterexample): the claimed invariant fails.  A path whose stem
is a single invalid byte but whose extension is the valid UTF-8 `"png"`
is accepted by `from_path` — `check_image_format` only decodes the
extension — yet `get_image_path` on the resulting input returns
`ImageNotFoundError`, so that branch is reachable for a successfully
constructed input. -/
theorem c1_counterexample :
    Image.from_path
        [OsChar.bad 255, OsChar.ch '.', OsChar.ch 'p', OsChar.ch 'n',
          OsChar.ch 'g'] =
      .ok ⟨InputData.Path
        [OsChar.bad 255, OsChar.ch '.', OsChar.ch 'p', OsChar.ch 'n',
          OsChar.ch 'g']⟩ ∧
    Image.get_image_path
        ⟨InputData.Path
          [OsChar.bad 255, OsChar.ch '.', OsChar.ch 'p', OsChar.ch 'n',
            OsChar.ch 'g']⟩ =
      .error TessError.ImageNotFoundError :=
  ⟨rfl, rfl⟩

/-- C1 (amended): construction validates only the extension, so the
invariant holds for every `from_path` input built from a valid UTF-8
path string: `get_image_path` then returns `Ok` with that string for
the value's whole lifetime. -/
theorem c1_amended_utf8_invariant (s : String) (img : Image)
    (h : Image.from_path (osOfString s) = .ok img) :
    img.get_image_path = .ok s := by
  unfold Image.from_path at h
  cases hc : Image.check_image_format (osOfString s) with
  | error e =>
    rw [hc] at h
    cases h
  | ok u =>
    simp only [hc] at h
    injection h with h
    subst h
    rw [get_image_path_eq]
    simp [Image.storedPath, osToStr_osOfString]

/-- Witness for C1 (amended): a concrete UTF-8 path accepted by
`from_path` resolves back to itself. -/
theorem c1_amended_witness :
    Image.get_image_path ⟨InputData.Path (osOfString "img/string.png")⟩ =
      .ok "img/string.png" :=
  c1_amended_utf8_invariant "img/string.png"
    ⟨InputData.Path (osOfString "img/string.png")⟩ rfl

/-- C2: for every path string whose extension is present, valid UTF-8 and
uppercases into the allow-list, `from_path` succeeds holding the path
unchanged, and `get_image_path` returns exactly the original string
(purely an extension-name check, no filesystem access in the model). -/
theorem c2_allowlisted_path_roundtrip (s e : String) (ex : OsStr)
    (hext : extension (osOfString s) = some ex)
    (hstr : osToStr ex = some e)
    (hmem : rustToUppercase e ∈ allowList) :
    Image.from_path (osOfString s) = .ok ⟨InputData.Path (osOfString s)⟩ ∧
    Image.get_image_path ⟨InputData.Path (osOfString s)⟩ = .ok s := by
  have hchk : Image.check_image_format (osOfString s) = .ok () := by
    unfold Image.check_image_format
    simp only [hext, hstr]
    simp [hmem]
  constructor
  · unfold Image.from_path
    simp [hchk]
  · rw [get_image_path_eq]
    simp [Image.storedPath, osToStr_osOfString]

/-- Witness for C2: the spec's example `"img/string.png"`. -/
theorem c2_allowlisted_witness :
    Image.from_path (osOfString "img/string.png") =
        .ok ⟨InputData.Path (osOfString "img/string.png")⟩ ∧
    Image.get_image_path ⟨InputData.Path (osOfString "img/string.png")⟩ =
      .ok "img/string.png" :=
  c2_allowlisted_path_roundtrip "img/string.png" "png" (osOfString "png")
    rfl rfl (by decide)

/-- C3: for every path string, `from_path` fails exactly when the
extension is absent or its uppercase form is not in the allow-list, and
every failure is `ImageFormatError`.  (For genuine strings the extension
is always valid UTF-8, so the unreadable-extension branch cannot add a
further case.) -/
theorem c3_from_path_failure_characterisation (s : String) :
    (∀ err, Image.from_path (osOfString s) = .error err →
      err = TessError.ImageFormatError) ∧
    (Image.from_path (osOfString s) = .error TessError.ImageFormatError ↔
      extension (osOfString s) = none ∨
      ∃ ex e, extension (osOfString s) = some ex ∧ osToStr ex = some e ∧
        rustToUppercase e ∉ allowList) := by
  cases hext : extension (osOfString s) with
  | none =>
    have hfp : Image.from_path (osOfString s) =
        .error TessError.ImageFormatError := by
      unfold Image.from_path Image.check_image_format
      simp [hext]
    constructor
    · intro err herr
      rw [hfp] at herr
      injection herr with herr
      exact herr.symm
    · rw [hfp]
      simp
  | some ex =>
    obtain ⟨e, hstr⟩ := extension_osOfString_str hext
    by_cases hmem : rustToUppercase e ∈ allowList
    · have hfp : Image.from_path (osOfString s) =
          .ok ⟨InputData.Path (osOfString s)⟩ := by
        unfold Image.from_path Image.check_image_format
        simp only [hext, hstr]
        simp [hmem]
      constructor
      · intro err herr
        rw [hfp] at herr
        cases herr
      · rw [hfp]
        constructor
        · intro hcontr
          cases hcontr
        · rintro (hnone | ⟨ex0, e0, hex0, hstr0, hne0⟩)
          · cases hnone
          · injection hex0 with hex0
            subst hex0
            rw [hstr] at hstr0
            injection hstr0 with hstr0
            subst hstr0
            exact (hne0 hmem).elim
    · have hfp : Image.from_path (osOfString s) =
          .error TessError.ImageFormatError := by
        unfold Image.from_path Image.check_image_format
        simp only [hext, hstr]
        simp [hmem]
      constructor
      · intro err herr
        rw [hfp] at herr
        injection herr with herr
        exact herr.symm
      · rw [hfp]
        constructor
        · intro _
          exact Or.inr ⟨ex, e, rfl, hstr, hmem⟩
        · intro _
          rfl

/-- Witness for C3: the spec's examples `"img/string.txt"` (bad
extension) and `"img/noext"` (no extension), each obtained through the
general theorem. -/
theorem c3_failure_witness :
    Image.from_path (osOfString "img/string.txt") =
        .error TessError.ImageFormatError ∧
    Image.from_path (osOfString "img/noext") =
      .error TessError.ImageFormatError :=
  ⟨(c3_from_path_failure_characterisation "img/string.txt").2.mpr
      (Or.inr ⟨osOfString "txt", "txt", rfl, rfl, by decide⟩),
   (c3_from_path_failure_characterisation "img/noext").2.mpr (Or.inl rfl)⟩

/-- C10: a file name that is a single leading dot followed by an
allow-listed suffix has no extension under `Path::extension` (the
leading dot is part of the dot-file's name, not a separator), so
`from_path` rejects it with `ImageFormatError`. -/
theorem c10_dotfile_rejected (p : OsStr) (rest : List Char)
    (hfn : file_name p = some (OsChar.ch '.' :: rest.map OsChar.ch))
    (hmem : rustToUppercase (String.mk rest) ∈ allowList) :
    Image.from_path p = .error TessError.ImageFormatError := by
  have hnodot : ∀ c ∈ rest.map OsChar.ch, c ≠ OsChar.ch '.' := by
    intro c hcm hEq
    obtain ⟨d, hd, rfl⟩ := List.mem_map.mp hcm
    injection hEq with hEq
    subst hEq
    exact allowList_no_dot _ hmem (dot_mem_rustToUppercase hd)
  have hext : extension p = none := by
    unfold extension
    rw [hfn]
    show afterLastDot (rest.map OsChar.ch) = none
    exact afterLastDot_eq_none hnodot
  unfold Image.from_path Image.check_image_format
  simp [hext]

/-- Witness for C10: the bare dot-file `".png"` and the nested
`"dir/.png"` are both rejected, each obtained through the general
theorem. -/
theorem c10_dotfile_witness :
    Image.from_path (osOfString ".png") = .error TessError.ImageFormatError ∧
    Image.from_path (osOfString "dir/.png") =
      .error TessError.ImageFormatError :=
  ⟨c10_dotfile_rejected (osOfString ".png") ['p', 'n', 'g'] rfl (by decide),
   c10_dotfile_rejected (osOfString "dir/.png") ['p', 'n', 'g'] rfl
     (by decide)⟩

end RustyTesseract
